import Mathlib

/-!
Verification of the KG relation-normalisation and graph-assembly pipeline.

Strings are modelled as `List Char` (Python `str` as a sequence of Unicode
code points).  Each definition below is a direct transcription of the
corresponding Python function from the repository sources
(`src/kg_builder.py`, `src/ontology_matcher.py`, `src/relation_extractor.py`,
`src/cq_generator.py`, `src/main.py`) together with the pieces of the Python
standard library they call (`re.sub` on the concrete patterns used,
`urllib.parse.quote`, `difflib.SequenceMatcher.ratio`).
-/

namespace KG

/-! ## Python character classes

`pyIsAlnum` models Python's `str.isalnum` (the alphanumeric part of the regex
class `\w`).  It is exact on the Basic Latin (ASCII) and Latin-1 Supplement
ranges; code points above U+00FF are treated as non-alphanumeric.  No theorem
below evaluates the sanitizer at a code point above U+00FF, and the universal
theorems are insensitive to the classification of individual characters. -/

def asciiAlnum (c : Char) : Bool :=
  ('0' ≤ c && c ≤ '9') || ('A' ≤ c && c ≤ 'Z') || ('a' ≤ c && c ≤ 'z')

def pyIsAlnum (c : Char) : Bool :=
  asciiAlnum c ||
  (c.toNat = 0xAA || c.toNat = 0xB2 || c.toNat = 0xB3 || c.toNat = 0xB5 ||
   c.toNat = 0xB9 || c.toNat = 0xBA || c.toNat = 0xBC || c.toNat = 0xBD ||
   c.toNat = 0xBE ||
   (0xC0 ≤ c.toNat && c.toNat ≤ 0xFF && !(c.toNat = 0xD7) && !(c.toNat = 0xF7)))

/-- The Python regex class `\w` on strings: alphanumeric or underscore. -/
def pyWordChar (c : Char) : Bool :=
  pyIsAlnum c || c = '_'

/-- Python `str.lower`, character-wise: the upper-case ASCII letters
(code points 65-90) map to their lower-case forms.  Exact on ASCII;
non-ASCII cased letters are left unchanged (no theorem below evaluates
`pyLower` at a non-ASCII cased letter). -/
def pyLower (c : Char) : Char :=
  if 65 ≤ c.toNat && c.toNat ≤ 90 then Char.ofNat (c.toNat + 32) else c

/-- Python `str.strip` whitespace class (ASCII part). -/
def pyIsSpace (c : Char) : Bool :=
  c = ' ' || c = '\t' || c = '\n' || c = '\r' ||
  c.toNat = 0x0B || c.toNat = 0x0C

def pyStrip (s : List Char) : List Char :=
  ((s.dropWhile pyIsSpace).reverse.dropWhile pyIsSpace).reverse

/-! ## The URI sanitizer (`kg_builder.py`, `sanitize_uri`)

`sanitize_uri` is the composite of the three statements of the source:
`re.sub(r'[^\w\-]', '_', value)`, then `re.sub(r'_+', '_', ...)`, then
`urllib.parse.quote(..., safe='')`. -/

/-- First statement: `re.sub` with pattern `[^\w\-]` replaces every character
that is neither a word character nor a hyphen by an underscore. -/
def step1 (s : List Char) : List Char :=
  s.map (fun c => if pyWordChar c || c = '-' then c else '_')

/-- Second statement: `re.sub(r'_+', '_', s)` replaces every maximal run of
underscores by a single underscore.  The Boolean flag records whether the
scanner is currently inside a run of underscores (in which case further
underscores of the run produce no output). -/
def collapseAux : Bool → List Char → List Char
  | _, [] => []
  | inRun, c :: rest =>
    if c = '_' then
      if inRun then collapseAux true rest else '_' :: collapseAux true rest
    else c :: collapseAux false rest

def collapseUnderscores (s : List Char) : List Char :=
  collapseAux false s

/-- UTF-8 encoding of a code point, as `urllib.parse.quote` applies it. -/
def utf8Bytes (c : Char) : List Nat :=
  let v := c.toNat
  if v < 0x80 then [v]
  else if v < 0x800 then [0xC0 + v / 0x40, 0x80 + v % 0x40]
  else if v < 0x10000 then
    [0xE0 + v / 0x1000, 0x80 + (v / 0x40) % 0x40, 0x80 + v % 0x40]
  else
    [0xF0 + v / 0x40000, 0x80 + (v / 0x1000) % 0x40,
     0x80 + (v / 0x40) % 0x40, 0x80 + v % 0x40]

/-- Upper-case hexadecimal digit, as produced by `urllib.parse.quote`. -/
def hexDigit (n : Nat) : Char :=
  if n < 10 then Char.ofNat ('0'.toNat + n) else Char.ofNat ('A'.toNat + n - 10)

/-- The characters `urllib.parse.quote` never encodes (its `_ALWAYS_SAFE`
set); with `safe=''` nothing else is left bare. -/
def quoteSafe (c : Char) : Bool :=
  asciiAlnum c || c = '_' || c = '.' || c = '-' || c = '~'

def quoteChar (c : Char) : List Char :=
  if quoteSafe c then [c]
  else (utf8Bytes c).flatMap (fun b => ['%', hexDigit (b / 16), hexDigit (b % 16)])

/-- Third statement: `urllib.parse.quote(s, safe='')`. -/
def pyQuote (s : List Char) : List Char :=
  s.flatMap quoteChar

/-- `KnowledgeGraphBuilder.sanitize_uri` (kg_builder.py, lines 33-45). -/
def sanitize_uri (s : List Char) : List Char :=
  pyQuote (collapseUnderscores (step1 s))

/-! ## The specification's reference definition of the sanitizer

The spec (§4.3) describes the sanitizer as: replace every character that is
not alphanumeric or underscore with an underscore, collapse consecutive
underscores, then percent-encode any remaining reserved characters.  The
following definitions transcribe those words (not the source). -/

/-- Spec step 1: replace every character that is not alphanumeric or
underscore with an underscore.  (Note: no hyphen exception.) -/
def specReplace (s : List Char) : List Char :=
  s.foldr (fun c acc => (if pyIsAlnum c || c = '_' then c else '_') :: acc) []

/-- Spec step 2: collapse consecutive underscores into one. -/
def specCollapse : List Char → List Char
  | [] => []
  | c :: rest =>
    if c = '_' ∧ (specCollapse rest).head? = some '_' then specCollapse rest
    else c :: specCollapse rest

/-- RFC 3986 reserved characters (gen-delims and sub-delims). -/
def reservedChar (c : Char) : Bool :=
  c = ':' || c = '/' || c = '?' || c = '#' || c = '[' || c = ']' || c = '@' ||
  c = '!' || c = '$' || c = '&' || c = Char.ofNat 0x27 || c = '(' || c = ')' ||
  c = '*' || c = '+' || c = ',' || c = ';' || c = '='

/-- Spec step 3: percent-encode any remaining reserved characters. -/
def specEncodeReserved (s : List Char) : List Char :=
  s.flatMap (fun c =>
    if reservedChar c then
      (utf8Bytes c).flatMap (fun b => ['%', hexDigit (b / 16), hexDigit (b % 16)])
    else [c])

/-- The three-step reference definition exactly as the claim states it. -/
def sanitize_spec_three_step (s : List Char) : List Char :=
  specEncodeReserved (specCollapse (specReplace s))

/-- Spec step 1 amended: the source also preserves hyphens. -/
def specReplaceKeepHyphen (s : List Char) : List Char :=
  s.foldr (fun c acc => (if pyIsAlnum c || c = '_' || c = '-' then c else '_') :: acc) []

/-- Spec step 3 amended: percent-encode everything outside the unreserved
set actually left bare by `quote(..., safe='')`. -/
def specEncodeAll (s : List Char) : List Char :=
  s.foldr (fun c acc => quoteChar c ++ acc) []

/-- The amended reference definition: keep hyphens in step 1 and
percent-encode all non-unreserved characters in step 3. -/
def sanitize_spec_amended (s : List Char) : List Char :=
  specEncodeAll (specCollapse (specReplaceKeepHyphen s))

/-! ## difflib.SequenceMatcher (Python standard library)

`OntologyMatcher` calls `difflib.SequenceMatcher(None, a, b).ratio()`.  The
model below transcribes CPython's difflib for `isjunk=None`: `b2j` maps an
element to its increasing list of positions in `b`, with the autojunk rule
discarding elements occurring more than `len(b)//100 + 1` times when `b` has
at least 200 elements; `find_longest_match` runs the quadratic dynamic
programme over `j2len` and then extends the winning block over non-junk and
then junk neighbours; the total match count sums the sizes of the recursive
block decomposition (`get_matching_blocks`); `ratio` is `2*M/T`, and `1`
when both sequences are empty.  The recursive decomposition and the
extension loops carry an explicit fuel argument that strictly exceeds the
number of iterations they can perform. -/

/-- The autojunk rule of `SequenceMatcher.__chain_b` for `isjunk=None`. -/
def isPopular (b : List Char) (c : Char) : Bool :=
  200 ≤ b.length && b.length / 100 + 1 < b.count c

/-- Positions `j` of `ai` in `b` with `blo ≤ j < bhi`, in increasing order:
the inner loop of `find_longest_match` over `b2j.get(a[i], [])` after the
`j < blo` continue and `j >= bhi` break. -/
def b2jList (b : List Char) (ai : Char) (blo bhi : Nat) : List Nat :=
  if isPopular b ai then []
  else (List.range' blo (bhi - blo)).filter (fun j => b[j]? = some ai)

structure FlmState where
  besti : Nat
  bestj : Nat
  bestsize : Nat
  j2len : List (Nat × Nat)

/-- One step of the inner loop of `find_longest_match`: look up the length of
the matching run ending at `(i-1, j-1)` in the previous row (`j2lenOld`),
record the extended run in the current row, and update the best block on a
strictly longer run.  `j = 0` corresponds to Python's `j2len.get(-1, 0)`. -/
def flmInnerStep (j2lenOld : List (Nat × Nat)) (i : Nat) (st : FlmState)
    (j : Nat) : FlmState :=
  let k := (if j = 0 then 0 else (List.lookup (j - 1) j2lenOld).getD 0) + 1
  let st' := { st with j2len := (j, k) :: st.j2len }
  if st.bestsize < k then
    { st' with besti := i + 1 - k, bestj := j + 1 - k, bestsize := k }
  else st'

/-- The dynamic-programming part of `find_longest_match`. -/
def flmDP (a b : List Char) (alo ahi blo bhi : Nat) : Nat × Nat × Nat :=
  let final := (List.range' alo (ahi - alo)).foldl
    (fun (st : FlmState) i =>
      let js := match a[i]? with
        | none => []
        | some ai => b2jList b ai blo bhi
      js.foldl (flmInnerStep st.j2len i) { st with j2len := [] })
    ⟨alo, blo, 0, []⟩
  (final.besti, final.bestj, final.bestsize)

/-- The while-loop extending the best block to the left over neighbours whose
junk status equals `junk`.  Fuel bounds the number of iterations; it is
called with fuel `besti`, and each iteration decrements `besti`. -/
def extLeft (a b : List Char) (alo blo : Nat) (junk : Bool) :
    Nat → Nat × Nat × Nat → Nat × Nat × Nat
  | 0, st => st
  | fuel + 1, (bi, bj, bs) =>
    let ok := match bi, bj with
      | bi' + 1, bj' + 1 =>
        (alo ≤ bi' && blo ≤ bj') &&
        (match a[bi']?, b[bj']? with
         | some x, some y => x = y && (isPopular b y = junk)
         | _, _ => false)
      | _, _ => false
    if ok then extLeft a b alo blo junk fuel (bi - 1, bj - 1, bs + 1)
    else (bi, bj, bs)

/-- The while-loop extending the best block to the right over neighbours
whose junk status equals `junk`.  Called with fuel `ahi`; each iteration
increments the size while `besti + bestsize < ahi`. -/
def extRight (a b : List Char) (ahi bhi : Nat) (junk : Bool) :
    Nat → Nat × Nat × Nat → Nat × Nat × Nat
  | 0, st => st
  | fuel + 1, (bi, bj, bs) =>
    let ok := (bi + bs < ahi && bj + bs < bhi) &&
      (match a[bi + bs]?, b[bj + bs]? with
       | some x, some y => x = y && (isPopular b y = junk)
       | _, _ => false)
    if ok then extRight a b ahi bhi junk fuel (bi, bj, bs + 1)
    else (bi, bj, bs)

/-- `SequenceMatcher.find_longest_match` on `a[alo:ahi]` and `b[blo:bhi]`. -/
def find_longest_match (a b : List Char) (alo ahi blo bhi : Nat) :
    Nat × Nat × Nat :=
  let s0 := flmDP a b alo ahi blo bhi
  let s1 := extLeft a b alo blo false s0.1 s0
  let s2 := extRight a b ahi bhi false ahi s1
  let s3 := extLeft a b alo blo true s2.1 s2
  extRight a b ahi bhi true ahi s3

/-- Total size of all matching blocks (`get_matching_blocks` recursively
splits around the longest match; only the sum of sizes is needed).  The fuel
strictly exceeds the depth of the recursion, which is bounded by the total
length of the two slices. -/
def matchesSum (a b : List Char) : Nat → Nat → Nat → Nat → Nat → Nat
  | 0, _, _, _, _ => 0
  | fuel + 1, alo, ahi, blo, bhi =>
    let m := find_longest_match a b alo ahi blo bhi
    if m.2.2 = 0 then 0
    else
      matchesSum a b fuel alo m.1 blo m.2.1 + m.2.2 +
      matchesSum a b fuel (m.1 + m.2.2) ahi (m.2.1 + m.2.2) bhi

def pyMatches (a b : List Char) : Nat :=
  matchesSum a b (a.length + b.length + 1) 0 a.length 0 b.length

/-- `SequenceMatcher.ratio()`: the rational `2*M/T`, and `1` when `T = 0`
(`difflib._calculate_ratio`). -/
def ratioQ (a b : List Char) : Rat :=
  let t := a.length + b.length
  if t = 0 then 1 else mkRat (2 * pyMatches a b) t

/-! ## Substring occurrence (Python's `in` on strings) -/

def startsWithCL : List Char → List Char → Bool
  | [], _ => true
  | _ :: _, [] => false
  | p :: ps, t :: ts => p = t && startsWithCL ps ts

/-- Python's `pat in text` for strings: `pat` occurs as a contiguous
substring of `text` (the empty pattern always occurs). -/
def occursIn (pat : List Char) : List Char → Bool
  | [] => pat.isEmpty
  | t :: ts => startsWithCL pat (t :: ts) || occursIn pat ts

/-- Substring occurrence as a proposition, used to state claims. -/
def substrOf (pat text : List Char) : Prop :=
  ∃ u v, text = u ++ pat ++ v

/-! ## Ordered dictionaries

Python dicts preserve insertion order; assignment to an existing key
replaces the value in place, assignment to a fresh key appends. -/

def dictInsert {V : Type} (d : List (List Char × V)) (k : List Char) (v : V) :
    List (List Char × V) :=
  if d.any (fun p => decide (p.1 = k)) then
    d.map (fun p => if p.1 = k then (k, v) else p)
  else d ++ [(k, v)]

def dictGet {V : Type} (k : List Char) : List (List Char × V) → Option V
  | [] => none
  | (k', v) :: rest => if k' = k then some v else dictGet k rest

/-- `{**d1, **d2}`: the entries of `d1` updated/extended by those of `d2`. -/
def dictMerge {V : Type} (d1 d2 : List (List Char × V)) :
    List (List Char × V) :=
  d2.foldl (fun acc kv => dictInsert acc kv.1 kv.2) d1

/-! ## OntologyMatcher (`src/ontology_matcher.py`) -/

/-- The predefined semantic equivalence groups of `OntologyMatcher.__init__`,
in declaration (dict insertion) order. -/
def semantic_equivalence : List (List Char × List (List Char)) :=
  [(("birth".data), [("born".data), ("date of birth".data), ("birthdate".data)]),
   (("death".data), [("died".data), ("date of death".data), ("deathdate".data)]),
   (("citizenship".data),
    [("nationality".data), ("country of citizenship".data), ("origin".data)]),
   (("occupation".data), [("profession".data), ("job".data), ("career".data)]),
   (("work".data), [("creation".data), ("notable work".data), ("achievement".data)])]

/-- `property.lower().strip()`, the normalisation of
`is_semantically_similar`. -/
def normalizeProp (p : List Char) : List Char :=
  pyStrip (p.map pyLower)

/-- `OntologyMatcher.is_semantically_similar` (ontology_matcher.py, lines
29-54), with the configurable threshold as a parameter (default 0.8 = 4/5).
The float comparison `ratio >= threshold` is modelled exactly over the
rationals; for the ratios `2*M/T` arising from inputs of realistic length
the rational and double-precision comparisons agree. -/
def is_semantically_similar (thr : Rat) (p1 p2 : List Char) : Bool :=
  let a := normalizeProp p1
  let b := normalizeProp p2
  if a = b then true
  else if semantic_equivalence.any (fun g => decide (a ∈ g.2) && decide (b ∈ g.2))
    then true
  else decide (thr ≤ ratioQ a b)

/-- A relation record, the dict
`{'relation': ..., 'description': ..., 'domain': ..., 'range': ...}`
produced by `extract_relations`. -/
structure RelationRecord where
  relation : List Char
  description : List Char
  domain : List Char
  range : List Char
deriving DecidableEq

/-- The inner loop of `match_relations` over the equivalence groups, with
the `break` after the first group containing the relation as a variant.
`relation.copy()` with one field reassigned is the structure update. -/
def refineLoop : List (List Char × List (List Char)) → RelationRecord →
    RelationRecord
  | [], r => r
  | (canon, variants) :: rest, r =>
    if r.relation ∈ variants then { r with relation := canon }
    else refineLoop rest r

/-- `OntologyMatcher.match_relations` (ontology_matcher.py, lines 75-97). -/
def match_relations (relations : List RelationRecord) : List RelationRecord :=
  relations.map (fun r => refineLoop semantic_equivalence r)

/-- The similarity computed inside `generate_ontology_mapping`:
`SequenceMatcher(None, source_prop.lower(), target_prop.lower()).ratio()`. -/
def gomSim (s t : List Char) : Rat :=
  ratioQ (s.map pyLower) (t.map pyLower)

/-- The inner loop of `generate_ontology_mapping`: running best match and
best similarity (initially `None` and `0`), updated when the similarity is
strictly greater than the running best and at least the threshold. -/
def bestLoop (thr : Rat) (s : List Char) :
    List (List Char) → Option (List Char) × Rat → Option (List Char) × Rat
  | [], acc => acc
  | t :: rest, (best, bs) =>
    if bs < gomSim s t ∧ thr ≤ gomSim s t then bestLoop thr s rest (some t, gomSim s t)
    else bestLoop thr s rest (best, bs)

/-- `OntologyMatcher.generate_ontology_mapping` (ontology_matcher.py, lines
99-129).  `if best_match:` is Python truthiness: both `None` and the empty
string are rejected. -/
def generate_ontology_mapping (thr : Rat) (sources targets : List (List Char)) :
    List (List Char × List Char) :=
  sources.foldl
    (fun d s =>
      match (bestLoop thr s targets (none, 0)).1 with
      | some t => if t = [] then d else dictInsert d s t
      | none => d)
    []

/-! ## RelationExtractor (`src/relation_extractor.py`) -/

/-- The value dict of a relation entry.  `description` is looked up with
`details['description']` (present in every entry the code constructs);
`domain` and `range` are looked up with `.get(..., 'Unknown')` and may be
absent. -/
structure RelDetails where
  description : List Char
  domain? : Option (List Char)
  range? : Option (List Char)
deriving DecidableEq

def unknownStr : List Char := "Unknown".data

/-- The predefined `standard_relations` dict, in insertion order. -/
def standard_relations : List (List Char × RelDetails) :=
  [(("date of birth".data),
    ⟨("The date on which the subject was born".data),
     some ("Person".data), some ("Date".data)⟩),
   (("date of death".data),
    ⟨("The date on which the subject died".data),
     some ("Person".data), some ("Date".data)⟩),
   (("occupation".data),
    ⟨("The occupation of a person".data),
     some ("Person".data), some ("Occupation".data)⟩),
   (("country of citizenship".data),
    ⟨("The country of which the subject is a citizen".data),
     some ("Person".data), some ("Country".data)⟩),
   (("notable work".data),
    ⟨("The most notable work of a person".data),
     some ("Person".data), some ("Creative Work".data)⟩)]

structure RelationExtractor where
  standard_relations : List (List Char × RelDetails)
  custom_relations : List (List Char × RelDetails)
  all_relations : List (List Char × RelDetails)
deriving DecidableEq

/-- `RelationExtractor.__init__` with custom relations already loaded (the
JSON config load is external I/O; an absent or unreadable config leaves
`custom_relations` empty): `all_relations = {**standard, **custom}`. -/
def mkExtractor (custom : List (List Char × RelDetails)) : RelationExtractor :=
  ⟨standard_relations, custom, dictMerge standard_relations custom⟩

def default_extractor : RelationExtractor :=
  mkExtractor []

/-- `RelationExtractor.extract_relations` (relation_extractor.py, lines
60-82): lowercase the text, keep every entry of `all_relations` whose key
occurs as a contiguous substring, in dict iteration order. -/
def extract_relations (e : RelationExtractor) (text : List Char) :
    List RelationRecord :=
  let t := text.map pyLower
  e.all_relations.filterMap (fun kd =>
    if occursIn kd.1 t then
      some ⟨kd.1, kd.2.description, kd.2.domain?.getD unknownStr,
            kd.2.range?.getD unknownStr⟩
    else none)

/-- The dict argument of `add_custom_relation`, with each key accessed via
`.get`: an absent key is `none`. -/
structure PyRelationArg where
  relation? : Option (List Char)
  description? : Option (List Char)
  domain? : Option (List Char)
  range? : Option (List Char)
deriving DecidableEq

/-- `RelationExtractor.add_custom_relation` (relation_extractor.py, lines
84-98).  `if key:` is Python truthiness on `relation.get('relation')`: both
`None` and the empty string are rejected. -/
def add_custom_relation (e : RelationExtractor) (r : PyRelationArg) :
    RelationExtractor :=
  match r.relation? with
  | none => e
  | some key =>
    if key = [] then e
    else
      let entry : RelDetails :=
        ⟨r.description?.getD [], some (r.domain?.getD unknownStr),
         some (r.range?.getD unknownStr)⟩
      { e with custom_relations := dictInsert e.custom_relations key entry,
               all_relations := dictInsert e.all_relations key entry }

/-! ## KnowledgeGraphBuilder (`src/kg_builder.py`) -/

/-- An entity as returned by `extract_entities`: surface text and spaCy
label. -/
structure Entity where
  text : List Char
  label : List Char
deriving DecidableEq

/-- An RDF node in object position: a resource (URI) or a literal with an
optional language tag. -/
inductive RDFObj where
  | res : List Char → RDFObj
  | lit : List Char → Option (List Char) → RDFObj
deriving DecidableEq

structure Triple where
  subj : List Char
  pred : List Char
  obj : RDFObj
deriving DecidableEq

def WD : List Char := "http://www.wikidata.org/entity/".data
def WDT : List Char := "http://www.wikidata.org/prop/direct/".data
def SCHEMA : List Char := "http://schema.org/".data
def rdfType : List Char := "http://www.w3.org/1999/02/22-rdf-syntax-ns#type".data
def rdfsLabel : List Char := "http://www.w3.org/2000/01/rdf-schema#label".data
def rdfsComment : List Char := "http://www.w3.org/2000/01/rdf-schema#comment".data

def natToChars (n : Nat) : List Char :=
  Nat.toDigits 10 n

/-- The triples added by `build_knowledge_graph` (kg_builder.py, lines
66-121), in emission order.  The spaCy NER capability (`extract_entities`)
is an external collaborator (spec §1); its output is the `entities`
argument.  `rdflib.Graph` has set semantics: the graph is the set of these
triples (`List.dedup` below). -/
def build_triples (entities : List Entity) (relations : List RelationRecord)
    (competency_questions : List (List Char)) : List Triple :=
  let docUri := WD ++ ("Document".data)
  [⟨docUri, rdfType, .res (SCHEMA ++ ("CreativeWork".data))⟩,
   ⟨docUri, rdfsLabel, .lit ("Source Document".data) (some ("en".data))⟩]
  ++ entities.flatMap (fun ent =>
      let entityUri := WD ++ sanitize_uri ent.text
      [⟨entityUri, rdfType, .res (SCHEMA ++ ent.label)⟩,
       ⟨entityUri, rdfsLabel, .lit ent.text (some ("en".data))⟩,
       ⟨docUri, SCHEMA ++ ("mentions".data), .res entityUri⟩])
  ++ relations.flatMap (fun rel =>
      let relationUri := WDT ++ sanitize_uri rel.relation
      [⟨relationUri, rdfType, .res (SCHEMA ++ ("Property".data))⟩,
       ⟨relationUri, rdfsLabel, .lit rel.relation none⟩,
       ⟨relationUri, rdfsComment, .lit rel.description none⟩])
  ++ competency_questions.enum.flatMap (fun iq =>
      let questionUri := WD ++ ("CompetencyQuestion_".data) ++ natToChars (iq.1 + 1)
      [⟨questionUri, rdfType, .res (SCHEMA ++ ("Question".data))⟩,
       ⟨questionUri, rdfsLabel, .lit iq.2 (some ("en".data))⟩,
       ⟨docUri, SCHEMA ++ ("hasPart".data), .res questionUri⟩])

def apos : Char := Char.ofNat 39

def renderObj : RDFObj → List Char
  | .res u => ('<' :: u) ++ (">".data)
  | .lit v none => ('"' :: v) ++ ("\"".data)
  | .lit v (some lang) => ('"' :: v) ++ ("\"@".data) ++ lang

def renderTriple (t : Triple) : List Char :=
  ('<' :: t.subj) ++ ("> <".data) ++ t.pred ++ ("> ".data) ++
  renderObj t.obj ++ (" .\n".data)

def turtle_prefixes : List Char :=
  ("@prefix wd: <http://www.wikidata.org/entity/> .\n@prefix wdt: <http://www.wikidata.org/prop/direct/> .\n@prefix schema: <http://schema.org/> .\n@prefix rdfs: <http://www.w3.org/2000/01/rdf-schema#> .\n@prefix rdf: <http://www.w3.org/1999/02/22-rdf-syntax-ns#> .\n@prefix xsd: <http://www.w3.org/2001/XMLSchema#> .\n".data)

/-- Modelled from the spec: the final statement of `build_knowledge_graph`
is `g.serialize(format='turtle')`, implemented by the external `rdflib`
library (not part of this repository).  Per spec §4.3 and §8 it is a
deterministic, complete textual serialization of the namespace bindings and
the triple set; it is modelled as the fixed prefix block followed by one
line per distinct triple. -/
def serialize_graph (ts : List Triple) : List Char :=
  turtle_prefixes ++ (ts.dedup.flatMap renderTriple)

/-! ## CompetencyQuestionGenerator and orchestrator
(`src/cq_generator.py`, `src/main.py`) -/

def entity_question_types : List (List Char) :=
  [("PERSON".data), ("ORG".data), ("GPE".data), ("DATE".data)]

/-- `CompetencyQuestionGenerator.generate_questions` with the spaCy entity
capability output as input: one question per entity of the four types, then
truncated to `max_questions`. -/
def generate_questions (entities : List Entity) (max_questions : Nat) :
    List (List Char) :=
  ((entities.filter (fun e => decide (e.label ∈ entity_question_types))).map
    (fun e => ("What is the ".data) ++ (e.label.map pyLower) ++ (" of ".data) ++
      e.text ++ ("?".data))).take max_questions

def unsupported_format_msg (fmt : List Char) : List Char :=
  ("Unsupported output format: ".data) ++ fmt ++ (". Only ".data) ++ [apos] ++
  ("turtle".data) ++ [apos] ++ (" is currently supported.".data)

def extraction_error_msg (doc_path err : List Char) : List Char :=
  ("Could not extract text from ".data) ++ doc_path ++ (": ".data) ++ err

/-- `KnowledgeGraphOrchestrator.generate_knowledge_graph` (main.py, lines
30-64).  The two external capabilities are parameters: `textract_result`
is the outcome of `textract.process(doc_path).decode('utf-8')` (an
exception becomes the wrapping `ValueError`), and `ner` is the spaCy
entity capability used by both the question generator and the graph
builder.  Note the order of the source: the format check comes after the
whole pipeline has run. -/
def generate_knowledge_graph (e : RelationExtractor)
    (textract_result : Except (List Char) (List Char))
    (ner : List Char → List Entity)
    (doc_path : List Char) (max_questions : Nat) (output_format : List Char) :
    Except (List Char) (List Char) :=
  match textract_result with
  | .error err => .error (extraction_error_msg doc_path err)
  | .ok text =>
    let competency_questions := generate_questions (ner text) max_questions
    let relations := extract_relations e text
    let matched_relations := match_relations relations
    let kg := serialize_graph
      (build_triples (ner text) matched_relations competency_questions)
    if (output_format.map pyLower) ≠ ("turtle".data) then
      .error (unsupported_format_msg output_format)
    else .ok kg

/-! ## Reference definitions used to state claims -/

/-- The maximum of the similarities of `s` against the targets (0 when there
are no targets). -/
def maxSim (s : List Char) (targets : List (List Char)) : Rat :=
  (targets.map (gomSim s)).foldr max 0

/-- The selection rule of the spec for `map_properties`: the first target
attaining the maximum ratio, kept only when that maximum reaches the
threshold. -/
def specSelect (thr : Rat) (s : List Char) (targets : List (List Char)) :
    Option (List Char) :=
  if thr ≤ maxSim s targets then
    targets.find? (fun t => decide (gomSim s t = maxSim s targets))
  else none

/-- The round-trip scenario of the spec (§8): one recognized entity. -/
def roundtrip_entities : List Entity :=
  [⟨("Douglas Adams".data), ("PERSON".data)⟩]

def roundtrip_relations : List RelationRecord :=
  [⟨("occupation".data), ("The primary occupation of a person".data),
    ("Person".data), ("Occupation".data)⟩]

def roundtrip_questions : List (List Char) :=
  [("Who was Douglas Adams?".data)]

/-- An extractor whose vocabulary contains a non-lowercase key, reachable
through `add_custom_relation`. -/
def uppercase_key_extractor : RelationExtractor :=
  add_custom_relation default_extractor
    ⟨some ("BORN".data), some ("Birth marker".data), none, none⟩

/-! ## Sanitizer lemmas -/

theorem step1_eq_specReplaceKeepHyphen (s : List Char) :
    step1 s = specReplaceKeepHyphen s := by
  induction s with
  | nil => rfl
  | cons c t ih =>
    simp only [step1, specReplaceKeepHyphen, List.map_cons, List.foldr_cons] at *
    rw [ih]
    have : (pyWordChar c || c = '-') = (pyIsAlnum c || c = '_' || c = '-') := by
      simp [pyWordChar, Bool.or_assoc]
    rw [this]

theorem pyQuote_eq_specEncodeAll (s : List Char) :
    pyQuote s = specEncodeAll s := by
  induction s with
  | nil => rfl
  | cons c t ih =>
    simp only [pyQuote, specEncodeAll, List.flatMap_cons, List.foldr_cons] at *
    rw [ih]

theorem specCollapse_cons (c : Char) (rest : List Char) :
    specCollapse (c :: rest) =
      if c = '_' ∧ (specCollapse rest).head? = some '_' then specCollapse rest
      else c :: specCollapse rest := rfl

theorem collapseAux_eq_specCollapse : ∀ l : List Char,
    collapseAux false l = specCollapse l ∧
    collapseAux true l =
      (if (specCollapse l).head? = some '_' then (specCollapse l).tail
       else specCollapse l) := by
  intro l
  induction l with
  | nil => exact ⟨rfl, rfl⟩
  | cons c rest ih =>
    obtain ⟨ihF, ihT⟩ := ih
    by_cases hc : c = '_'
    · subst hc
      by_cases hh : (specCollapse rest).head? = some '_'
      · have hspec : specCollapse ('_' :: rest) = specCollapse rest := by
          rw [specCollapse_cons, if_pos (And.intro rfl hh)]
        have htail : '_' :: (specCollapse rest).tail = specCollapse rest :=
          List.cons_head?_tail hh
        constructor
        · simp only [collapseAux, if_pos rfl, Bool.false_eq_true, if_false,
            ihT, if_pos hh, hspec]
          exact htail
        · simp only [collapseAux, if_pos rfl, if_true, ihT, if_pos hh, hspec,
            if_pos hh]
      · have hspec : specCollapse ('_' :: rest) = '_' :: specCollapse rest := by
          rw [specCollapse_cons, if_neg (fun h => hh h.2)]
        constructor
        · simp only [collapseAux, if_pos rfl, Bool.false_eq_true, if_false,
            ihT, if_neg hh, hspec]
          simp
        · simp only [collapseAux, if_pos rfl, if_true, ihT, if_neg hh, hspec,
            List.head?_cons, if_pos rfl, List.tail_cons]
    · have hspec : specCollapse (c :: rest) = c :: specCollapse rest := by
        rw [specCollapse_cons, if_neg (fun h => hc h.1)]
      have hhead : ¬ ((c :: specCollapse rest).head? = some '_') := by
        simp only [List.head?_cons, Option.some.injEq]
        exact hc
      constructor
      · simp only [collapseAux, if_neg hc, ihF, hspec]
      · simp only [collapseAux, if_neg hc, ihF, hspec, if_neg hhead]

theorem collapseUnderscores_eq_specCollapse (l : List Char) :
    collapseUnderscores l = specCollapse l :=
  (collapseAux_eq_specCollapse l).1

theorem specCollapse_idem (l : List Char) :
    specCollapse (specCollapse l) = specCollapse l := by
  induction l with
  | nil => rfl
  | cons c rest ih =>
    rw [specCollapse_cons]
    by_cases h : c = '_' ∧ (specCollapse rest).head? = some '_'
    · rw [if_pos h, ih]
    · rw [if_neg h, specCollapse_cons, ih, if_neg h]

theorem collapseUnderscores_idem (l : List Char) :
    collapseUnderscores (collapseUnderscores l) = collapseUnderscores l := by
  rw [collapseUnderscores_eq_specCollapse, collapseUnderscores_eq_specCollapse,
    specCollapse_idem]

theorem mem_collapseAux {c : Char} : ∀ (b : Bool) (l : List Char),
    c ∈ collapseAux b l → c = '_' ∨ c ∈ l := by
  intro b l
  induction l generalizing b with
  | nil => intro h; simp [collapseAux] at h
  | cons x rest ih =>
    intro h
    by_cases hx : x = '_'
    · subst hx
      cases b with
      | false =>
        simp only [collapseAux, if_pos rfl] at h
        simp only [if_neg (by simp : ¬(false = true))] at h
        rcases List.mem_cons.mp h with h1 | h1
        · exact Or.inl h1
        · rcases ih true h1 with h2 | h2
          · exact Or.inl h2
          · exact Or.inr (List.mem_cons_of_mem _ h2)
      | true =>
        simp only [collapseAux, if_pos rfl, if_pos rfl] at h
        rcases ih true h with h2 | h2
        · exact Or.inl h2
        · exact Or.inr (List.mem_cons_of_mem _ h2)
    · simp only [collapseAux, if_neg hx] at h
      rcases List.mem_cons.mp h with h1 | h1
      · exact Or.inr (h1 ▸ List.mem_cons_self _ _)
      · rcases ih false h1 with h2 | h2
        · exact Or.inl h2
        · exact Or.inr (List.mem_cons_of_mem _ h2)

theorem mem_step1 {c : Char} {s : List Char} (h : c ∈ step1 s) :
    c = '_' ∨ (c ∈ s ∧ (pyWordChar c || c = '-') = true) := by
  simp only [step1, List.mem_map] at h
  obtain ⟨a, ha, hfa⟩ := h
  by_cases hk : (pyWordChar a || a = '-') = true
  · rw [if_pos hk] at hfa
    subst hfa
    exact Or.inr ⟨ha, hk⟩
  · rw [if_neg hk] at hfa
    exact Or.inl hfa.symm

theorem pyQuote_id {l : List Char} (h : ∀ c ∈ l, quoteSafe c = true) :
    pyQuote l = l := by
  induction l with
  | nil => rfl
  | cons c t ih =>
    have ht : pyQuote t = t := ih (fun x hx => h x (List.mem_cons_of_mem _ hx))
    simp only [pyQuote, List.flatMap_cons] at *
    rw [quoteChar, if_pos (h c (List.mem_cons_self _ _)), ht]
    rfl

theorem step1_id {l : List Char} (h : ∀ c ∈ l, (pyWordChar c || c = '-') = true) :
    step1 l = l := by
  induction l with
  | nil => rfl
  | cons c t ih =>
    simp only [step1, List.map_cons]
    rw [if_pos (h c (List.mem_cons_self _ _))]
    have : step1 t = t := ih (fun x hx => h x (List.mem_cons_of_mem _ hx))
    simp only [step1] at this
    rw [this]

theorem pyIsAlnum_ascii {c : Char} (h : c.toNat < 128) :
    pyIsAlnum c = asciiAlnum c := by
  cases hb : asciiAlnum c
  · simp only [pyIsAlnum, hb, Bool.false_or, Bool.or_eq_false_iff,
      Bool.and_eq_false_iff, decide_eq_false_iff_not, Bool.not_eq_false',
      decide_eq_true_eq]
    omega
  · simp [pyIsAlnum, hb]

theorem ascii_word_quoteSafe {c : Char} (hascii : c.toNat < 128)
    (hw : (pyWordChar c || c = '-') = true) : quoteSafe c = true := by
  rcases (by simpa using hw : pyWordChar c = true ∨ c = '-') with h | h
  · rcases (by simpa [pyWordChar] using h : pyIsAlnum c = true ∨ c = '_') with h1 | h1
    · rw [pyIsAlnum_ascii hascii] at h1
      simp [quoteSafe, h1]
    · simp [quoteSafe, h1]
  · simp [quoteSafe, h]

/-- Characters of `collapseUnderscores (step1 s)` for an ASCII input `s`:
they are ASCII and kept by the regex class (word character or hyphen). -/
theorem sanitize_core_chars {s : List Char} (hs : ∀ c ∈ s, c.toNat < 128) :
    ∀ c ∈ collapseUnderscores (step1 s),
      c.toNat < 128 ∧ (pyWordChar c || c = '-') = true := by
  intro c hc
  rcases mem_collapseAux false (step1 s) hc with h | h
  · subst h
    refine ⟨by decide, by decide⟩
  · rcases mem_step1 h with h1 | h1
    · subst h1
      refine ⟨by decide, by decide⟩
    · exact ⟨hs c h1.1, h1.2⟩

/-- C1, counterexample: the claim's three-step reference definition replaces
the hyphen by an underscore, but `sanitize_uri` preserves hyphens (the source
regex class is `[^\w\-]`, not "not alphanumeric or underscore"), so the two
disagree already on the one-character input consisting of a hyphen. -/
theorem C1_counterexample_hyphen :
    sanitize_uri ("-".data) = ("-".data) ∧
    sanitize_spec_three_step ("-".data) = ("_".data) ∧
    sanitize_uri ("-".data) ≠ sanitize_spec_three_step ("-".data) := by
  refine ⟨by decide, by decide, by decide⟩

/-- C1, amended: `sanitize_uri` equals the three-step reference definition
once step 1 is amended to also preserve hyphens and step 3 percent-encodes
every character outside the unreserved set (rather than only reserved
characters). -/
theorem C1_sanitize_eq_amended_three_step (s : List Char) :
    sanitize_uri s = sanitize_spec_amended s := by
  rw [sanitize_uri, sanitize_spec_amended, step1_eq_specReplaceKeepHyphen,
    collapseUnderscores_eq_specCollapse, pyQuote_eq_specEncodeAll]

/-- C2, counterexample: `sanitize_uri` is not idempotent on every string.
On the one-character string "é" (U+00E9) the first pass percent-encodes the
letter to "%C3%A9", and the second pass turns the percent signs into
underscores, giving "_C3_A9". -/
theorem C2_counterexample_nonascii :
    sanitize_uri [Char.ofNat 233] = ("%C3%A9".data) ∧
    sanitize_uri (sanitize_uri [Char.ofNat 233]) = ("_C3_A9".data) ∧
    sanitize_uri (sanitize_uri [Char.ofNat 233]) ≠ sanitize_uri [Char.ofNat 233] := by
  refine ⟨by decide, by decide, by decide⟩

/-- C2, amended: `sanitize_uri` is idempotent on every string consisting of
ASCII characters (for such inputs the percent-encoding pass is the
identity). -/
theorem C2_idempotent_on_ascii (s : List Char) (hs : ∀ c ∈ s, c.toNat < 128) :
    sanitize_uri (sanitize_uri s) = sanitize_uri s := by
  have hchars := sanitize_core_chars hs
  have hsafe : ∀ c ∈ collapseUnderscores (step1 s), quoteSafe c = true :=
    fun c hc => ascii_word_quoteSafe (hchars c hc).1 (hchars c hc).2
  have h1 : sanitize_uri s = collapseUnderscores (step1 s) := by
    rw [sanitize_uri]
    exact pyQuote_id hsafe
  rw [h1, sanitize_uri, step1_id (fun c hc => (hchars c hc).2),
    collapseUnderscores_idem]
  exact pyQuote_id hsafe

theorem C2_idempotent_on_ascii_witness :
    (∀ c ∈ ("Douglas Adams 42!".data), c.toNat < 128) ∧
    sanitize_uri (sanitize_uri ("Douglas Adams 42!".data)) =
      sanitize_uri ("Douglas Adams 42!".data) :=
  ⟨by decide, C2_idempotent_on_ascii ("Douglas Adams 42!".data) (by decide)⟩

/-! ## OntologyMatcher theorems -/

/-- C3: if the trimmed lowercased forms of two strings both belong to the
variant set of some equivalence group, `is_semantically_similar` returns
true for every threshold — the group check precedes and bypasses the fuzzy
ratio comparison. -/
theorem C3_group_match_bypasses_fuzzy (thr : Rat) (p1 p2 : List Char)
    (h : ∃ g ∈ semantic_equivalence,
      normalizeProp p1 ∈ g.2 ∧ normalizeProp p2 ∈ g.2) :
    is_semantically_similar thr p1 p2 = true := by
  obtain ⟨g, hg, h1, h2⟩ := h
  by_cases heq : normalizeProp p1 = normalizeProp p2
  · simp [is_semantically_similar, heq]
  · have hany : semantic_equivalence.any
        (fun g => decide (normalizeProp p1 ∈ g.2) &&
                  decide (normalizeProp p2 ∈ g.2)) = true := by
      rw [List.any_eq_true]
      exact ⟨g, hg, by simp [h1, h2]⟩
    simp [is_semantically_similar, heq, hany]

theorem C3_group_match_bypasses_fuzzy_witness :
    (∃ g ∈ semantic_equivalence,
      normalizeProp ("born".data) ∈ g.2 ∧
      normalizeProp ("date of birth".data) ∈ g.2) ∧
    is_semantically_similar (4 / 5) ("born".data) ("date of birth".data) = true :=
  ⟨by decide, C3_group_match_bypasses_fuzzy (4 / 5) _ _ (by decide)⟩

theorem refineLoop_eq_find? (r : RelationRecord) :
    ∀ gs : List (List Char × List (List Char)),
      refineLoop gs r =
        match gs.find? (fun g => decide (r.relation ∈ g.2)) with
        | some g => { r with relation := g.1 }
        | none => r := by
  intro gs
  induction gs with
  | nil => rfl
  | cons g rest ih =>
    obtain ⟨canon, variants⟩ := g
    by_cases h : r.relation ∈ variants
    · simp [refineLoop, List.find?_cons, h]
    · simp [refineLoop, List.find?_cons, h, ih]

/-- C4: `match_relations` maps each record independently; a record whose
relation value is a variant of some group is rewritten to the canonical name
of the first such group in declaration order, any other record passes
through unchanged, and the output has the length and order of the input. -/
theorem C4_match_relations_rewrites_by_first_group
    (relations : List RelationRecord) :
    match_relations relations =
      relations.map (fun r =>
        match semantic_equivalence.find? (fun g => decide (r.relation ∈ g.2)) with
        | some g => { r with relation := g.1 }
        | none => r) ∧
    (match_relations relations).length = relations.length := by
  constructor
  · exact List.map_congr_left (fun r _ => refineLoop_eq_find? r semantic_equivalence)
  · simp [match_relations]

/-! ## KnowledgeGraphBuilder theorems (round-trip scenario) -/

/-- C7, counterexample: the round-trip scenario does not produce 12 triples.
The document node alone contributes two triples (type and label), so the
total is 2 + 3 + 3 + 3 = 11. -/
theorem C7_counterexample_twelve_triples :
    (build_triples roundtrip_entities roundtrip_relations
      roundtrip_questions).dedup.length ≠ 12 := by
  decide

/-- C7, amended: the round-trip scenario produces exactly 11 distinct
triples: two for the document node (type and label), three for the entity
(type, label and the `mentions` link), three for the relation (type, label,
comment) and three for the question (type, label and the `hasPart` link). -/
theorem C7_eleven_distinct_triples :
    (build_triples roundtrip_entities roundtrip_relations
      roundtrip_questions).length = 11 ∧
    (build_triples roundtrip_entities roundtrip_relations
      roundtrip_questions).Nodup := by
  constructor
  · decide
  · decide

/-! ## Orchestrator theorems -/

/-- C8, counterexample: with a non-turtle output format the pipeline still
runs before the format check; in particular a failing text extraction
surfaces as the extraction error, not as the unsupported-format rejection,
even though the requested format is unsupported. -/
theorem C8_counterexample_extraction_precedes_format_check :
    generate_knowledge_graph default_extractor (.error ("boom".data))
      (fun _ => []) ("doc.pdf".data) 3 ("json".data)
      = .error (extraction_error_msg ("doc.pdf".data) ("boom".data)) ∧
    extraction_error_msg ("doc.pdf".data) ("boom".data) ≠
      unsupported_format_msg ("json".data) := by
  exact ⟨rfl, by decide⟩

/-- C8, amended: for every output format other than "turtle"
(case-insensitively), when text extraction succeeds the call returns the
unsupported-format error and no graph — but the rejection happens only
after the extraction, matching and assembly stages have run. -/
theorem C8_unsupported_format_rejected (e : RelationExtractor)
    (text : List Char) (ner : List Char → List Entity) (doc_path : List Char)
    (maxq : Nat) (fmt : List Char)
    (h : (fmt.map pyLower) ≠ ("turtle".data)) :
    generate_knowledge_graph e (.ok text) ner doc_path maxq fmt
      = .error (unsupported_format_msg fmt) := by
  simp only [generate_knowledge_graph]
  rw [if_pos h]

theorem C8_unsupported_format_rejected_witness :
    ((("json".data).map pyLower) ≠ ("turtle".data)) ∧
    generate_knowledge_graph default_extractor (.ok ("x".data)) (fun _ => [])
      ("doc.pdf".data) 3 ("json".data)
      = .error (unsupported_format_msg ("json".data)) :=
  ⟨by decide,
   C8_unsupported_format_rejected default_extractor ("x".data) (fun _ => [])
     ("doc.pdf".data) 3 ("json".data) (by decide)⟩

theorem extract_relations_congr {e1 e2 : RelationExtractor}
    (h : e1.all_relations = e2.all_relations) (t : List Char) :
    extract_relations e1 t = extract_relations e2 t := by
  simp only [extract_relations, h]

/-- C9: the pipeline output is a function of the input text, the
relation-vocabulary state (`all_relations`) and the parameters alone: two
runs with identical extraction outcome, identical NER capability, identical
vocabulary and identical parameters produce identical serialized output. -/
theorem C9_pipeline_deterministic (e1 e2 : RelationExtractor)
    (h : e1.all_relations = e2.all_relations)
    (textract_result : Except (List Char) (List Char))
    (ner : List Char → List Entity) (doc_path : List Char) (maxq : Nat)
    (fmt : List Char) :
    generate_knowledge_graph e1 textract_result ner doc_path maxq fmt =
    generate_knowledge_graph e2 textract_result ner doc_path maxq fmt := by
  cases textract_result with
  | error err => rfl
  | ok text => simp only [generate_knowledge_graph, extract_relations_congr h]

theorem C9_pipeline_deterministic_witness :
    (RelationExtractor.mk [] [] standard_relations).all_relations =
      default_extractor.all_relations ∧
    generate_knowledge_graph (RelationExtractor.mk [] [] standard_relations)
      (.ok ("x".data)) (fun _ => []) ("d.txt".data) 3 ("turtle".data) =
    generate_knowledge_graph default_extractor
      (.ok ("x".data)) (fun _ => []) ("d.txt".data) 3 ("turtle".data) :=
  ⟨by decide,
   C9_pipeline_deterministic (RelationExtractor.mk [] [] standard_relations)
     default_extractor (by decide) (.ok ("x".data)) (fun _ => [])
     ("d.txt".data) 3 ("turtle".data)⟩

/-! ## RelationExtractor theorems -/

theorem toNat_ofNat_valid {n : Nat} (h : n < 0xD800) :
    (Char.ofNat n).toNat = n := by
  rw [Char.ofNat, dif_pos (Or.inl h)]
  rfl

theorem pyLower_lt (c : Char) : c.toNat < 0x110000 := by
  have := c.val.toBitVec.isLt
  simp only [Char.toNat, UInt32.toNat]
  rcases c.valid with h | h
  · exact lt_trans h (by norm_num)
  · exact h.2

theorem pyLower_idem (c : Char) : pyLower (pyLower c) = pyLower c := by
  by_cases h : (65 ≤ c.toNat && c.toNat ≤ 90) = true
  · have h' : 65 ≤ c.toNat ∧ c.toNat ≤ 90 := by simpa using h
    have ht : (Char.ofNat (c.toNat + 32)).toNat = c.toNat + 32 :=
      toNat_ofNat_valid (by omega)
    have hin : pyLower c = Char.ofNat (c.toNat + 32) := by
      rw [pyLower, if_pos h]
    have houter : pyLower (Char.ofNat (c.toNat + 32)) = Char.ofNat (c.toNat + 32) := by
      rw [pyLower, if_neg (by simp [ht]; omega)]
    rw [hin, houter]
  · have hin : pyLower c = c := by rw [pyLower, if_neg h]
    rw [hin, hin]

theorem startsWithCL_iff : ∀ (p t : List Char),
    startsWithCL p t = true ↔ ∃ v, t = p ++ v := by
  intro p
  induction p with
  | nil =>
    intro t
    simp [startsWithCL]
  | cons c ps ih =>
    intro t
    cases t with
    | nil =>
      simp [startsWithCL]
    | cons x ts =>
      simp only [startsWithCL, Bool.and_eq_true, decide_eq_true_eq, ih,
        List.cons_append, List.cons.injEq]
      constructor
      · rintro ⟨hc, v, hv⟩
        exact ⟨v, hc.symm, hv⟩
      · rintro ⟨v, hc, hv⟩
        exact ⟨hc.symm, v, hv⟩

theorem occursIn_iff : ∀ (t p : List Char),
    occursIn p t = true ↔ substrOf p t := by
  intro t
  induction t with
  | nil =>
    intro p
    simp only [occursIn, List.isEmpty_iff, substrOf]
    constructor
    · rintro rfl
      exact ⟨[], [], rfl⟩
    · rintro ⟨u, v, huv⟩
      rcases List.append_eq_nil.mp huv.symm with ⟨h1, h2⟩
      exact (List.append_eq_nil.mp h1).2
  | cons x ts ih =>
    intro p
    simp only [occursIn, Bool.or_eq_true, startsWithCL_iff, ih, substrOf]
    constructor
    · rintro (⟨v, hv⟩ | ⟨u, v, huv⟩)
      · exact ⟨[], v, by simpa using hv⟩
      · exact ⟨x :: u, v, by simp [huv]⟩
    · rintro ⟨u, v, huv⟩
      cases u with
      | nil =>
        exact Or.inl ⟨v, by simpa using huv⟩
      | cons y u' =>
        right
        simp only [List.cons_append, List.cons.injEq] at huv
        exact ⟨u', v, huv.2⟩

/-- Characters inside a substring of a lowercased string are fixed by
lowercasing, hence the substring equals its own lowercased form. -/
theorem substr_of_lower_fixed {p t : List Char}
    (h : substrOf p (t.map pyLower)) : p.map pyLower = p := by
  obtain ⟨u, v, huv⟩ := h
  have hmem : ∀ c ∈ p, pyLower c = c := by
    intro c hc
    have : c ∈ t.map pyLower := by
      rw [huv]
      exact List.mem_append.mpr (Or.inl (List.mem_append.mpr (Or.inr hc)))
    obtain ⟨d, _, hd⟩ := List.mem_map.mp this
    rw [← hd, pyLower_idem]
  calc p.map pyLower = p.map id := List.map_congr_left hmem
    _ = p := List.map_id p

/-- C5, counterexample: the extractor's vocabulary can contain a
non-lowercase key (via `add_custom_relation`); such a key is compared
verbatim against the lowercased text, so a case-insensitive occurrence is
missed and the extraction result is empty. -/
theorem C5_counterexample_uppercase_key :
    ((("BORN".data),
      (⟨("Birth marker".data), some unknownStr, some unknownStr⟩ : RelDetails))
        ∈ uppercase_key_extractor.all_relations) ∧
    substrOf ((("BORN".data)).map pyLower) ((("He was born".data)).map pyLower) ∧
    extract_relations uppercase_key_extractor ("He was born".data) = [] := by
  refine ⟨by decide, ⟨("he was ".data), [], by decide⟩, by decide⟩

/-- C5, amended: (a) for every key of the vocabulary that equals its own
lowercase form, a case-insensitive occurrence in the text yields a record
with that relation name; (b) if no key of the vocabulary occurs
case-insensitively in the text, the extraction result is empty (never a
failure).  Keys containing upper-case letters can never match (they are
compared verbatim against the lowercased text), which is what the
counterexample exhibits and what forces restriction (a). -/
theorem C5_extract_substring_lowercase (e : RelationExtractor) (t : List Char) :
    (∀ r d, (r, d) ∈ e.all_relations → r.map pyLower = r →
      substrOf (r.map pyLower) (t.map pyLower) →
      ∃ rec ∈ extract_relations e t, rec.relation = r) ∧
    ((∀ r d, (r, d) ∈ e.all_relations →
        ¬ substrOf (r.map pyLower) (t.map pyLower)) →
      extract_relations e t = []) := by
  constructor
  · intro r d hmem hlow hsub
    rw [hlow] at hsub
    have hocc : occursIn r (t.map pyLower) = true := (occursIn_iff _ _).mpr hsub
    refine ⟨⟨r, d.description, d.domain?.getD unknownStr, d.range?.getD unknownStr⟩,
      ?_, rfl⟩
    simp only [extract_relations]
    exact List.mem_filterMap.mpr ⟨(r, d), hmem, by rw [if_pos hocc]⟩
  · intro hno
    simp only [extract_relations]
    rw [List.filterMap_eq_nil_iff]
    intro kd hkd
    rw [if_neg]
    intro hocc
    have hsub : substrOf kd.1 (t.map pyLower) := (occursIn_iff _ _).mp hocc
    have hfix : kd.1.map pyLower = kd.1 := substr_of_lower_fixed hsub
    exact hno kd.1 kd.2 hkd (by rw [hfix]; exact hsub)

/-! ## generate_ontology_mapping theorems -/

theorem bool_eq_false {b : Bool} (h : ¬ b = true) : b = false := by
  cases b
  · rfl
  · exact absurd rfl h

theorem dictGet_cons {V : Type} (k k' : List Char) (v : V)
    (rest : List (List Char × V)) :
    dictGet k ((k', v) :: rest) = if k' = k then some v else dictGet k rest := rfl

theorem dictGet_map_update {V : Type} (k : List Char) (v : V) :
    ∀ d : List (List Char × V), d.any (fun p => decide (p.1 = k)) = true →
      dictGet k (d.map (fun p => if p.1 = k then (k, v) else p)) = some v := by
  intro d
  induction d with
  | nil => intro h; simp at h
  | cons p rest ih =>
    obtain ⟨pk, pv⟩ := p
    intro h
    by_cases hp : pk = k
    · rw [List.map_cons]
      simp only [if_pos hp]
      rw [dictGet_cons, if_pos rfl]
    · rw [List.map_cons]
      simp only [if_neg hp]
      rw [dictGet_cons, if_neg hp]
      apply ih
      simp only [List.any_cons, Bool.or_eq_true, decide_eq_true_eq] at h
      rcases h with h | h
      · exact absurd h hp
      · exact h

theorem dictGet_append_new {V : Type} (k : List Char) (v : V) :
    ∀ d : List (List Char × V), d.any (fun p => decide (p.1 = k)) = false →
      dictGet k (d ++ [(k, v)]) = some v := by
  intro d
  induction d with
  | nil =>
    intro _
    rw [List.nil_append, dictGet_cons, if_pos rfl]
  | cons p rest ih =>
    obtain ⟨pk, pv⟩ := p
    intro h
    simp only [List.any_cons, Bool.or_eq_false_iff, decide_eq_false_iff_not] at h
    rw [List.cons_append, dictGet_cons, if_neg h.1]
    exact ih h.2

theorem dictGet_insert_self {V : Type} (d : List (List Char × V))
    (k : List Char) (v : V) : dictGet k (dictInsert d k v) = some v := by
  unfold dictInsert
  by_cases hany : d.any (fun p => decide (p.1 = k)) = true
  · rw [if_pos hany]
    exact dictGet_map_update k v d hany
  · rw [if_neg hany]
    exact dictGet_append_new k v d (bool_eq_false hany)

theorem dictGet_map_update_ne {V : Type} (k : List Char) (v : V)
    (k' : List Char) (hne : k' ≠ k) :
    ∀ d : List (List Char × V),
      dictGet k' (d.map (fun p => if p.1 = k then (k, v) else p)) =
        dictGet k' d := by
  intro d
  induction d with
  | nil => rfl
  | cons p rest ih =>
    obtain ⟨pk, pv⟩ := p
    rw [List.map_cons]
    by_cases hp : pk = k
    · have hk : ¬ (k = k') := fun h => hne h.symm
      have hp' : ¬ (pk = k') := by rw [hp]; exact hk
      simp only [if_pos hp]
      rw [dictGet_cons, if_neg hk, dictGet_cons, if_neg hp', ih]
    · simp only [if_neg hp]
      rw [dictGet_cons, dictGet_cons, ih]

theorem dictGet_append_single_ne {V : Type} (k : List Char) (v : V)
    (k' : List Char) (hne : k' ≠ k) :
    ∀ d : List (List Char × V),
      dictGet k' (d ++ [(k, v)]) = dictGet k' d := by
  intro d
  induction d with
  | nil =>
    rw [List.nil_append, dictGet_cons, if_neg (fun h => hne h.symm)]
  | cons p rest ih =>
    obtain ⟨pk, pv⟩ := p
    rw [List.cons_append, dictGet_cons, dictGet_cons, ih]

theorem dictGet_insert_ne {V : Type} (d : List (List Char × V))
    (k : List Char) (v : V) (k' : List Char) (hne : k' ≠ k) :
    dictGet k' (dictInsert d k v) = dictGet k' d := by
  unfold dictInsert
  by_cases hany : d.any (fun p => decide (p.1 = k)) = true
  · rw [if_pos hany]
    exact dictGet_map_update_ne k v k' hne d
  · rw [if_neg hany]
    exact dictGet_append_single_ne k v k' hne d

theorem maxSim_cons (s t : List Char) (ts : List (List Char)) :
    maxSim s (t :: ts) = max (gomSim s t) (maxSim s ts) := rfl

/-- The running-best loop of `generate_ontology_mapping` computes, for a
positive threshold, the first target attaining the maximum similarity when
that maximum qualifies and improves on the incoming best similarity. -/
theorem bestLoop_char (thr : Rat) (hthr : 0 < thr) (s : List Char) :
    ∀ (targets : List (List Char)) (best : Option (List Char)) (bs : Rat),
      (bestLoop thr s targets (best, bs)).1 =
        if thr ≤ maxSim s targets ∧ bs < maxSim s targets then
          targets.find? (fun t => decide (gomSim s t = maxSim s targets))
        else best := by
  intro targets
  induction targets with
  | nil =>
    intro best bs
    rw [bestLoop, if_neg]
    rintro ⟨h1, _⟩
    have h0 : maxSim s [] = 0 := rfl
    rw [h0] at h1
    exact absurd (lt_of_lt_of_le hthr h1) (lt_irrefl 0)
  | cons t ts ih =>
    intro best bs
    have hstep : bestLoop thr s (t :: ts) (best, bs) =
        if bs < gomSim s t ∧ thr ≤ gomSim s t then
          bestLoop thr s ts (some t, gomSim s t)
        else bestLoop thr s ts (best, bs) := rfl
    rw [hstep]
    by_cases hupd : bs < gomSim s t ∧ thr ≤ gomSim s t
    · rw [if_pos hupd, ih (some t) (gomSim s t)]
      rcases le_or_lt (maxSim s ts) (gomSim s t) with hle | hgt
      · have h1 : maxSim s (t :: ts) = gomSim s t := by
          rw [maxSim_cons]
          exact max_eq_left hle
        rw [if_neg (fun hc => absurd hc.2 (not_lt.mpr hle)),
          if_pos ⟨h1 ▸ hupd.2, h1 ▸ hupd.1⟩, List.find?_cons]
        have hp : decide (gomSim s t = maxSim s (t :: ts)) = true := by
          simp [h1]
        rw [hp]
      · have h1 : maxSim s (t :: ts) = maxSim s ts := by
          rw [maxSim_cons]
          exact max_eq_right (le_of_lt hgt)
        rw [if_pos ⟨le_trans hupd.2 (le_of_lt hgt), hgt⟩,
          if_pos ⟨h1 ▸ le_trans hupd.2 (le_of_lt hgt),
                  h1 ▸ lt_trans hupd.1 hgt⟩, List.find?_cons]
        have hp : decide (gomSim s t = maxSim s (t :: ts)) = false := by
          simp only [decide_eq_false_iff_not, h1]
          exact ne_of_lt hgt
        rw [hp, h1]
    · rw [if_neg hupd, ih best bs]
      by_cases hcond : thr ≤ maxSim s (t :: ts) ∧ bs < maxSim s (t :: ts)
      · have hne : ¬ (gomSim s t = maxSim s (t :: ts)) := by
          intro heq
          exact hupd ⟨heq ▸ hcond.2, heq ▸ hcond.1⟩
        have h1 : maxSim s (t :: ts) = maxSim s ts := by
          rcases max_choice (gomSim s t) (maxSim s ts) with hc | hc
          · exact absurd ((maxSim_cons s t ts).trans hc).symm hne
          · exact (maxSim_cons s t ts).trans hc
        rw [if_pos ⟨h1 ▸ hcond.1, h1 ▸ hcond.2⟩, if_pos hcond, List.find?_cons]
        have hp : decide (gomSim s t = maxSim s (t :: ts)) = false := by
          simpa using hne
        rw [hp, h1]
      · have hcond2 : ¬ (thr ≤ maxSim s ts ∧ bs < maxSim s ts) := by
          intro hc
          refine hcond ⟨le_trans hc.1 ?_, lt_of_lt_of_le hc.2 ?_⟩
          · rw [maxSim_cons]; exact le_max_right _ _
          · rw [maxSim_cons]; exact le_max_right _ _
        rw [if_neg hcond2, if_neg hcond]

theorem bestLoop_eq_specSelect (thr : Rat) (hthr : 0 < thr) (s : List Char)
    (targets : List (List Char)) :
    (bestLoop thr s targets (none, 0)).1 = specSelect thr s targets := by
  rw [bestLoop_char thr hthr s targets none 0, specSelect]
  by_cases h : thr ≤ maxSim s targets
  · rw [if_pos ⟨h, lt_of_lt_of_le hthr h⟩, if_pos h]
  · rw [if_neg (fun hc => h hc.1), if_neg h]

theorem gom_fold_lookup (thr : Rat) (hthr : 0 < thr)
    (targets : List (List Char)) :
    ∀ (sources : List (List Char)) (d : List (List Char × List Char))
      (s : List Char),
      dictGet s (sources.foldl
        (fun d s =>
          match (bestLoop thr s targets (none, 0)).1 with
          | some t => if t = [] then d else dictInsert d s t
          | none => d) d) =
      if s ∈ sources ∧ ((specSelect thr s targets).bind
          (fun t => if t = [] then none else some t)).isSome = true then
        (specSelect thr s targets).bind (fun t => if t = [] then none else some t)
      else dictGet s d := by
  intro sources
  induction sources with
  | nil =>
    intro d s
    simp
  | cons s0 rest ih =>
    intro d s
    rw [List.foldl_cons, ih]
    by_cases hs : s = s0
    · subst hs
      rw [bestLoop_eq_specSelect thr hthr s targets]
      cases hsel : specSelect thr s targets with
      | none => simp [hsel]
      | some t =>
        by_cases ht : t = []
        · simp [hsel, ht]
        · by_cases hmem : s ∈ rest
          · simp [hsel, ht, hmem]
          · simp [hsel, ht, hmem, dictGet_insert_self]
    · have hstep : dictGet s (match (bestLoop thr s0 targets (none, 0)).1 with
          | some t => if t = [] then d else dictInsert d s0 t
          | none => d) = dictGet s d := by
        cases (bestLoop thr s0 targets (none, 0)).1 with
        | none => rfl
        | some t =>
          by_cases ht : t = []
          · simp [ht]
          · simp only [if_neg ht]
            exact dictGet_insert_ne d s0 t s hs
      rw [hstep]
      simp [List.mem_cons, hs]

/-- C6, counterexample: with the default threshold 0.8 the source property
"" has a qualifying best target "" (their ratio is 1), yet the mapping omits
it: Python's `if best_match:` treats the empty-string target as falsy. -/
theorem C6_counterexample_empty_target :
    mkRat 4 5 ≤ maxSim [] [[]] ∧
    generate_ontology_mapping (mkRat 4 5) [[]] [[]] = [] := by
  constructor
  · decide
  · decide

/-- C6, amended: for a positive threshold (the default is 0.8), each source
is looked up to the first target attaining the maximum similarity; the pair
is kept exactly when that maximum reaches the threshold and the selected
target is not the empty string (Python truthiness of `if best_match:`);
all other sources are omitted, producing a partial mapping. -/
theorem C6_mapping_argmax (thr : Rat) (hthr : 0 < thr)
    (sources targets : List (List Char)) (s : List Char) :
    dictGet s (generate_ontology_mapping thr sources targets) =
      if s ∈ sources then
        (specSelect thr s targets).bind (fun t => if t = [] then none else some t)
      else none := by
  rw [generate_ontology_mapping, gom_fold_lookup thr hthr targets sources [] s]
  by_cases hmem : s ∈ sources
  · cases hsel : ((specSelect thr s targets).bind
        fun t => if t = [] then none else some t) with
    | none => simp [hmem, hsel, dictGet]
    | some t => simp [hmem, hsel]
  · simp [hmem, dictGet]

theorem C6_mapping_argmax_witness :
    ((0 : Rat) < mkRat 4 5) ∧
    dictGet ("occupation".data)
      (generate_ontology_mapping (mkRat 4 5)
        [("occupation".data)] [("occupation".data)]) =
      some ("occupation".data) :=
  ⟨by decide,
   (C6_mapping_argmax (mkRat 4 5) (by decide)
     [("occupation".data)] [("occupation".data)] ("occupation".data)).trans
     (by decide)⟩

theorem C5_extract_substring_lowercase_witness :
    ∃ rec ∈ extract_relations default_extractor
      ("What is the Date of Birth of Douglas Adams?".data),
      rec.relation = ("date of birth".data) := by
  refine (C5_extract_substring_lowercase default_extractor
    ("What is the Date of Birth of Douglas Adams?".data)).1
    ("date of birth".data)
    ⟨("The date on which the subject was born".data),
     some ("Person".data), some ("Date".data)⟩
    (by decide) (by decide) ?_
  exact (occursIn_iff _ _).mp (by decide)

/-- C10: `add_custom_relation` with an absent or empty `relation` key leaves
the extractor (both the custom table and the merged table) unchanged, so
subsequent `extract_relations` calls behave exactly as before. -/
theorem C10_add_custom_relation_noop (e : RelationExtractor)
    (r : PyRelationArg) (h : r.relation? = none ∨ r.relation? = some []) :
    add_custom_relation e r = e ∧
    ∀ t, extract_relations (add_custom_relation e r) t = extract_relations e t := by
  have hmain : add_custom_relation e r = e := by
    rcases h with h | h <;> simp [add_custom_relation, h]
  exact ⟨hmain, fun t => by rw [hmain]⟩

theorem C10_add_custom_relation_noop_witness :
    ((⟨some [], some ("d".data), none, none⟩ : PyRelationArg).relation? = none ∨
     (⟨some [], some ("d".data), none, none⟩ : PyRelationArg).relation? = some []) ∧
    add_custom_relation default_extractor
      ⟨some [], some ("d".data), none, none⟩ = default_extractor :=
  ⟨Or.inr rfl,
   (C10_add_custom_relation_noop default_extractor
     ⟨some [], some ("d".data), none, none⟩ (Or.inr rfl)).1⟩

end KG
